import Mathlib

set_option maxRecDepth 1000000

/- Batteries marks the rational arithmetic operations irreducible, which
blocks `decide` on concrete rational computations; restore the default
reducibility for this verification development. -/
attribute [local semireducible] Rat.add Rat.mul Rat.inv Rat.sub

deriving instance DecidableEq for Except

/-!
Shallow embedding of the root-finding core of the financejs library
(`Finance` class in the TypeScript source): the `IRR` entry point with its
embedded `npv` objective and the `seekZero` scan, and the `XIRR` entry point
with its helpers `durYear` and `sumEq`.

Modelling conventions:
* JavaScript numbers are modelled as exact rationals `ℚ`.
* `Math.pow` with a possibly fractional exponent (used by `sumEq` on
  fractional-year durations) is modelled by an explicit function parameter
  `pw : ℚ → ℚ → ℚ`; `jpowInt` is the concrete instance used on sample
  inputs whose durations are integers, where `Math.pow` is exact.
* Dates are modelled by their `getTime` value in milliseconds (`ℤ`).
* Thrown `Error`s are modelled by `Except Err` / explicit error results.
* The unbounded `while` loops of `seekZero` are modelled with an explicit
  fuel parameter; `none` means the loop is still running after `fuel`
  many iterations.  Adequacy theorems show the fuel used by `IRR` suffices.
-/

namespace Finance

/-- The four errors thrown by `IRR` / `XIRR`. -/
inductive Err where
  | invalidSigns
  | searchExhausted
  | lengthMismatch
  | didNotConverge
deriving DecidableEq

/-- JavaScript `Math.round`: round half toward positive infinity. -/
def jround (x : ℚ) : ℤ := ⌊x + 1 / 2⌋

/-- `Math.round(x * 100) / 100`, the 2-decimal rounding applied to results. -/
def round2 (x : ℚ) : ℚ := (jround (x * 100) : ℚ) / 100

/-- Whether the series has a strictly positive entry (the `value > 0` scan
shared by `IRR` and `XIRR`). -/
def hasPositive (cf : List ℚ) : Bool := cf.any fun v => decide (0 < v)

/-- Whether the series has a strictly negative entry (the `value < 0` scan
shared by `IRR` and `XIRR`). -/
def hasNegative (cf : List ℚ) : Bool := cf.any fun v => decide (v < 0)

/-- The `for` loop of `IRR`'s embedded objective:
`for (let i = 1; i < cashFlow.length; i++) npv += cashFlow[i] / Math.pow(rrate, i)`,
with `i` the index of the head of the remaining list. -/
def npvTail (rrate : ℚ) : ℕ → List ℚ → ℚ
  | _, [] => 0
  | i, c :: cs => c / rrate ^ i + npvTail rrate (i + 1) cs

/-- The value computed by `IRR`'s embedded objective at a percentage-scaled
rate: `rrate = 1 + rate / 100`; `npv = cashFlow[0] + Σ cashFlow[i] / rrate^i`. -/
def npvValue (cashFlow : List ℚ) (rate : ℚ) : ℚ :=
  cashFlow.headD 0 + npvTail (1 + rate / 100) 1 (cashFlow.drop 1)

/-- One call of `IRR`'s embedded objective `npv`: `numberOfTries++`; if
`numberOfTries > depth` throw `"IRR can't find a result"`; otherwise return
the net present value together with the updated counter. -/
def npvEval (depth : ℕ) (cashFlow : List ℚ) (tries : ℕ) (rate : ℚ) :
    Except Err (ℚ × ℕ) :=
  if depth < tries + 1 then .error .searchExhausted
  else .ok (npvValue cashFlow rate, tries + 1)

/-- Phase 1 of `seekZero` applied to `IRR`'s effectful objective:
`while (fn(x) > 0) x += 1`, threading the call counter; `none` means the
loop is still running after `fuel` iterations. -/
def seekUpE (depth : ℕ) (cashFlow : List ℚ) :
    ℕ → ℕ → ℚ → Option (Except Err (ℚ × ℕ))
  | 0, _, _ => none
  | fuel + 1, tries, x =>
    match npvEval depth cashFlow tries x with
    | .error e => some (.error e)
    | .ok (v, tries') =>
      if 0 < v then seekUpE depth cashFlow fuel tries' (x + 1)
      else some (.ok (x, tries'))

/-- Phase 2 of `seekZero` applied to `IRR`'s effectful objective:
`while (fn(x) < 0) x -= 0.01`, threading the call counter. -/
def seekDownE (depth : ℕ) (cashFlow : List ℚ) :
    ℕ → ℕ → ℚ → Option (Except Err (ℚ × ℕ))
  | 0, _, _ => none
  | fuel + 1, tries, x =>
    match npvEval depth cashFlow tries x with
    | .error e => some (.error e)
    | .ok (v, tries') =>
      if v < 0 then seekDownE depth cashFlow fuel tries' (x - 1 / 100)
      else some (.ok (x, tries'))

/-- `seekZero` over `IRR`'s effectful objective: start at `x = 1` with the
given initial call counter, run phase 1 then phase 2, return `x + 0.01`. -/
def seekZeroE (depth : ℕ) (cashFlow : List ℚ) (fuel tries0 : ℕ) :
    Option (Except Err ℚ) :=
  match seekUpE depth cashFlow fuel tries0 1 with
  | none => none
  | some (.error e) => some (.error e)
  | some (.ok (x, tries)) =>
    match seekDownE depth cashFlow fuel tries x with
    | none => none
    | some (.error e) => some (.error e)
    | some (.ok (y, _)) => some (.ok (y + 1 / 100))

/-- `IRR` with an explicit fuel bound on the two `seekZero` loops:
initialize `numberOfTries = 1`, check the sign-mixture precondition, run
`seekZero` over the embedded objective, and round the result to 2 decimals. -/
def IRRf (depth : ℕ) (cashFlow : List ℚ) (fuel : ℕ) :
    Option (Except Err ℚ) :=
  if hasPositive cashFlow && hasNegative cashFlow then
    (seekZeroE depth cashFlow fuel 1).map (Except.map round2)
  else some (.error .invalidSigns)

/-- `IRR`: the fuel `depth + 1` is provably sufficient (`IRR_terminates`),
so this is the total behaviour of the JavaScript function. -/
def IRR (depth : ℕ) (cashFlow : List ℚ) : Option (Except Err ℚ) :=
  IRRf depth cashFlow (depth + 1)

/-- The pre-rounding value produced by `seekZero` inside a successful `IRR`
run (`0` in the unreachable branches). -/
def seekZeroVal (depth : ℕ) (cashFlow : List ℚ) (fuel : ℕ) : ℚ :=
  match seekZeroE depth cashFlow fuel 1 with
  | some (.ok y) => y
  | _ => 0

/-- Phase 1 of `seekZero` for a pure objective `f`:
`while (fn(x) > 0) x += 1`. -/
def seekUpP (f : ℚ → ℚ) : ℕ → ℚ → Option ℚ
  | 0, _ => none
  | fuel + 1, x => if 0 < f x then seekUpP f fuel (x + 1) else some x

/-- Phase 2 of `seekZero` for a pure objective `f`:
`while (fn(x) < 0) x -= 0.01`. -/
def seekDownP (f : ℚ → ℚ) : ℕ → ℚ → Option ℚ
  | 0, _ => none
  | fuel + 1, x => if f x < 0 then seekDownP f fuel (x - 1 / 100) else some x

/-- `seekZero` for a pure objective `f`: start at `x = 1`, run the upward
scan then the downward scan, and return `x + 0.01`. -/
def seekZeroP (f : ℚ → ℚ) (fuel : ℕ) : Option ℚ :=
  (seekUpP f fuel 1).bind fun x0 => (seekDownP f fuel x0).map fun y => y + 1 / 100

/-- Milliseconds per day, as in `const day = 24 * 60 * 60 * 1000`. -/
def msPerDay : ℚ := 24 * 60 * 60 * 1000

/-- `durYear(date1, date2)`: elapsed whole days between the two dates
(absolute difference of timestamps over `day`, rounded), divided by 365. -/
def durYear (d1 d2 : ℤ) : ℚ :=
  (jround |((d2 - d1 : ℤ) : ℚ) / msPerDay| : ℚ) / 365

/-- The duration array built by `XIRR`: `durs = [0]`, then
`durs.push(durYear(dts[0], dts[i]))` for `i = 1 .. dts.length - 1`. -/
def durations (dts : List ℤ) : List ℚ :=
  0 :: (dts.drop 1).map (durYear (dts.headD 0))

/-- `Number.prototype.toFixed(5)` as used in `XIRR`'s convergence test: the
produced string is determined by the sign of the value together with its
magnitude rounded (half away from zero toward the larger integer) to 5
decimal places, so the pair models string equality exactly (including the
`"-0.00000" !== "0.00000"` case). -/
def toFixed5 (x : ℚ) : Bool × ℤ := (decide (x < 0), ⌊|x| * 100000 + 1 / 2⌋)

/-- The first loop of `sumEq`:
`sum_fx += cfs[i] / Math.pow(1 + guess, durs[i])` for `i < cfs.length`. -/
def sumFx (pw : ℚ → ℚ → ℚ) (cfs durs : List ℚ) (guess : ℚ) : ℚ :=
  (List.range cfs.length).foldl
    (fun s i => s + cfs.getD i 0 / pw (1 + guess) (durs.getD i 0)) 0

/-- The second loop of `sumEq`:
`sum_fdx += -cfs[i] * durs[i] * Math.pow(1 + guess, -1 - durs[i])`. -/
def sumFdx (pw : ℚ → ℚ → ℚ) (cfs durs : List ℚ) (guess : ℚ) : ℚ :=
  (List.range cfs.length).foldl
    (fun s i => s + -(cfs.getD i 0) * durs.getD i 0 * pw (1 + guess) (-1 - durs.getD i 0)) 0

/-- `sumEq(cfs, durs, guess) = sum_fx / sum_fdx`. -/
def sumEq (pw : ℚ → ℚ → ℚ) (cfs durs : List ℚ) (guess : ℚ) : ℚ :=
  sumFx pw cfs durs guess / sumFdx pw cfs durs guess

/-- One Newton update of `XIRR`'s loop body:
`guess = guessLast - this.sumEq(cfs, durs, guessLast)`. -/
def xirrStep (pw : ℚ → ℚ → ℚ) (cfs durs : List ℚ) (g : ℚ) : ℚ :=
  g - sumEq pw cfs durs g

/-- The `do { ... } while (guessLast.toFixed(5) !== guess.toFixed(5) && limit > 0)`
loop of `XIRR`, entered with `limit = 100`; the `limit` argument here is the
value before the body's `limit--`, and the result is the final
`(guessLast, guess)` pair. -/
def xirrLoop (pw : ℚ → ℚ → ℚ) (cfs durs : List ℚ) : ℚ → ℕ → ℚ × ℚ
  | guess, 0 => (guess, xirrStep pw cfs durs guess)
  | guess, limit + 1 =>
    if toFixed5 guess ≠ toFixed5 (xirrStep pw cfs durs guess) ∧ 0 < limit then
      xirrLoop pw cfs durs (xirrStep pw cfs durs guess) limit
    else (guess, xirrStep pw cfs durs guess)

/-- `XIRR(cfs, dts, guess)`: length check, sign-mixture check, duration
setup, the Newton loop with `limit = 100`, a final `toFixed(5)` convergence
check, and rescaling of the converged fractional rate to percentage form. -/
def XIRR (pw : ℚ → ℚ → ℚ) (cfs : List ℚ) (dts : List ℤ) (guess : ℚ) :
    Except Err ℚ :=
  if cfs.length ≠ dts.length then .error .lengthMismatch
  else if !(hasPositive cfs && hasNegative cfs) then .error .invalidSigns
  else
    let durs := durations dts
    let p := xirrLoop pw cfs durs guess 100
    if toFixed5 p.1 ≠ toFixed5 p.2 then .error .didNotConverge
    else .ok (round2 (p.2 * 100))

/-- `XIRR` with the declared default for its `guess` parameter (`guess = 0`). -/
def XIRRdefault (pw : ℚ → ℚ → ℚ) (cfs : List ℚ) (dts : List ℤ) : Except Err ℚ :=
  XIRR pw cfs dts 0

/-- The Newton iterate sequence of `XIRR`: `n` applications of the update
`g ↦ g - sumEq(cfs, durs, g)` to the starting guess. -/
def newtonSeq (pw : ℚ → ℚ → ℚ) (cfs durs : List ℚ) (guess : ℚ) (n : ℕ) : ℚ :=
  (xirrStep pw cfs durs)^[n] guess

/-- Modelled from the spec: `NPV(r) = Σ cf[i] / (1+r)^durs[i]`, written with
the same abstract power function, for comparison with `sumFx`. -/
def npvOfSpec (pw : ℚ → ℚ → ℚ) (cfs durs : List ℚ) (r : ℚ) : ℚ :=
  ∑ i ∈ Finset.range cfs.length, cfs.getD i 0 / pw (1 + r) (durs.getD i 0)

/-- Modelled from the spec: `NPV'(r) = Σ -cf[i] · durs[i] · (1+r)^(-1-durs[i])`,
for comparison with `sumFdx`. -/
def npvDerivOfSpec (pw : ℚ → ℚ → ℚ) (cfs durs : List ℚ) (r : ℚ) : ℚ :=
  ∑ i ∈ Finset.range cfs.length, -(cfs.getD i 0) * durs.getD i 0 * pw (1 + r) (-1 - durs.getD i 0)

/-- Concrete instance of `Math.pow` used on witness inputs: exact whenever
the exponent is an integer (every sample input below has whole-number
durations, where `Math.pow` agrees with the rational integer power). -/
def jpowInt (x y : ℚ) : ℚ := x ^ y.num

/-! ## Lemmas about the pure `seekZero` loops -/

/-- A successful exit of the downward scan happens at a point where the
objective is nonnegative (the loop guard `fn(x) < 0` just failed there). -/
lemma seekDownP_nonneg (f : ℚ → ℚ) :
    ∀ (fuel : ℕ) (x y : ℚ), seekDownP f fuel x = some y → 0 ≤ f y := by
  intro fuel
  induction fuel with
  | zero => intro x y h; simp [seekDownP] at h
  | succ fuel ih =>
    intro x y h
    simp only [seekDownP] at h
    by_cases hc : f x < 0
    · rw [if_pos hc] at h
      exact ih _ _ h
    · rw [if_neg hc] at h
      cases h
      exact le_of_not_lt hc

/-- CLAIM C1 (amended): `seekZero` starts at `x = 1`; while `f(x) > 0` it
steps `x` up by `1`; once `f(x) ≤ 0` it steps `x` down by `0.01` while
`f(x) < 0`; when the downward loop exits at a point `x` (the first scanned
point with `f(x) ≥ 0`), it returns `x + 0.01`.  The returned value is one
step above that point, so `f` is nonnegative at `result - 0.01`, not
necessarily at the result itself. -/
theorem seekZero_loops (f : ℚ → ℚ) (fuel : ℕ) (x r : ℚ) :
    (0 < f x → seekUpP f (fuel + 1) x = seekUpP f fuel (x + 1))
    ∧ (f x ≤ 0 → seekUpP f (fuel + 1) x = some x)
    ∧ (f x < 0 → seekDownP f (fuel + 1) x = seekDownP f fuel (x - 1 / 100))
    ∧ (0 ≤ f x → seekDownP f (fuel + 1) x = some x)
    ∧ (seekZeroP f fuel
        = (seekUpP f fuel 1).bind fun x0 => (seekDownP f fuel x0).map fun y => y + 1 / 100)
    ∧ (seekZeroP f fuel = some r → 0 ≤ f (r - 1 / 100)) := by
  refine ⟨?_, ?_, ?_, ?_, rfl, ?_⟩
  · intro h; simp only [seekUpP]; rw [if_pos h]
  · intro h; simp only [seekUpP]; rw [if_neg (not_lt.mpr h)]
  · intro h; simp only [seekDownP]; rw [if_pos h]
  · intro h; simp only [seekDownP]; rw [if_neg (not_lt.mpr h)]
  · intro h
    unfold seekZeroP at h
    rcases hup : seekUpP f fuel 1 with _ | x0
    · rw [hup] at h; simp at h
    · rw [hup] at h
      simp only [Option.some_bind] at h
      rcases hdn : seekDownP f fuel x0 with _ | y
      · rw [hdn] at h; simp at h
      · rw [hdn] at h
        simp only [Option.map_some', Option.some.injEq] at h
        have h0 := seekDownP_nonneg f fuel x0 y hdn
        rw [← h]
        simpa using h0

/-- CLAIM C1 (counterexample to the original wording): for
`f(x) = 0.99 - x`, `seekZero` returns `1`, yet `f(1) < 0` — the returned
point is not a point where `f(x) ≥ 0`; the first such point scanning
downward is `0.99`, one step below the returned value. -/
theorem seekZero_return_point_cex :
    seekZeroP (fun x : ℚ => 99 / 100 - x) 10 = some 1
    ∧ (fun x : ℚ => 99 / 100 - x) 1 < 0
    ∧ 0 ≤ (fun x : ℚ => 99 / 100 - x) (99 / 100) := by
  refine ⟨by decide, by decide, by decide⟩

/-- Witness for `seekZero_loops` at the concrete objective `f(x) = 0.99 - x`. -/
theorem seekZero_loops_witness :
    seekUpP (fun x : ℚ => 99 / 100 - x) 11 1 = some 1
    ∧ seekDownP (fun x : ℚ => 99 / 100 - x) 11 (99 / 100) = some (99 / 100)
    ∧ 0 ≤ (fun x : ℚ => 99 / 100 - x) (1 - 1 / 100) :=
  ⟨(seekZero_loops (fun x : ℚ => 99 / 100 - x) 10 1 1).2.1 (by decide),
   (seekZero_loops (fun x : ℚ => 99 / 100 - x) 10 (99 / 100) 1).2.2.2.1 (by decide),
   (seekZero_loops (fun x : ℚ => 99 / 100 - x) 10 1 1).2.2.2.2.2 (by decide)⟩

/-! ## Lemmas about `sumEq` and the Newton iteration of `XIRR` -/

/-- Folding `+` of an indexed term over `List.range n` is the `Finset.range`
sum of the terms. -/
lemma foldl_add_sum (F : ℕ → ℚ) :
    ∀ (n : ℕ) (s : ℚ),
      (List.range n).foldl (fun a i => a + F i) s = s + ∑ i ∈ Finset.range n, F i := by
  intro n
  induction n with
  | zero => intro s; simp
  | succ n ih =>
    intro s
    rw [List.range_succ, List.foldl_append]
    simp [ih, Finset.sum_range_succ]
    ring

/-- The first `sumEq` loop computes the spec's `NPV(r)`. -/
lemma sumFx_eq (pw : ℚ → ℚ → ℚ) (cfs durs : List ℚ) (g : ℚ) :
    sumFx pw cfs durs g = npvOfSpec pw cfs durs g := by
  rw [sumFx, npvOfSpec]
  exact (foldl_add_sum (fun i => cfs.getD i 0 / pw (1 + g) (durs.getD i 0))
    cfs.length 0).trans (zero_add _)

/-- The second `sumEq` loop computes the spec's `NPV'(r)`. -/
lemma sumFdx_eq (pw : ℚ → ℚ → ℚ) (cfs durs : List ℚ) (g : ℚ) :
    sumFdx pw cfs durs g = npvDerivOfSpec pw cfs durs g := by
  rw [sumFdx, npvDerivOfSpec]
  exact (foldl_add_sum
    (fun i => -(cfs.getD i 0) * durs.getD i 0 * pw (1 + g) (-1 - durs.getD i 0))
    cfs.length 0).trans (zero_add _)

/-- CLAIM C2: `sumEq(cfs, durs, g)` is the Newton quotient
`NPV(g) / NPV'(g)` with `NPV(r) = Σ cf[i]/(1+r)^durs[i]` and
`NPV'(r) = Σ -cf[i]·durs[i]·(1+r)^(-1-durs[i])`; each loop pass replaces the
guess `g` by `g - NPV(g)/NPV'(g)`; and the iteration starts from the
caller-supplied guess, which defaults to `0`. -/
theorem sumEq_newton_quotient (pw : ℚ → ℚ → ℚ) (cfs durs : List ℚ) (g : ℚ)
    (l : ℕ) (dts : List ℤ) :
    sumEq pw cfs durs g = npvOfSpec pw cfs durs g / npvDerivOfSpec pw cfs durs g
    ∧ xirrStep pw cfs durs g = g - npvOfSpec pw cfs durs g / npvDerivOfSpec pw cfs durs g
    ∧ xirrLoop pw cfs durs g (l + 1)
        = (if toFixed5 g ≠ toFixed5 (xirrStep pw cfs durs g) ∧ 0 < l then
            xirrLoop pw cfs durs (xirrStep pw cfs durs g) l
          else (g, xirrStep pw cfs durs g))
    ∧ XIRRdefault pw cfs dts = XIRR pw cfs dts 0 := by
  refine ⟨?_, ?_, rfl, rfl⟩
  · rw [sumEq, sumFx_eq, sumFdx_eq]
  · rw [xirrStep, sumEq, sumFx_eq, sumFdx_eq]

/-- Witness for `sumEq_newton_quotient` at a concrete input. -/
theorem sumEq_newton_quotient_witness :
    sumEq jpowInt [-1, 1] [0, 1] 0
      = npvOfSpec jpowInt [-1, 1] [0, 1] 0 / npvDerivOfSpec jpowInt [-1, 1] [0, 1] 0
    ∧ XIRRdefault jpowInt [-1, 1] [0, 31536000000] = XIRR jpowInt [-1, 1] [0, 31536000000] 0 :=
  ⟨(sumEq_newton_quotient jpowInt [-1, 1] [0, 1] 0 1 [0, 31536000000]).1,
   (sumEq_newton_quotient jpowInt [-1, 1] [0, 1] 0 1 [0, 31536000000]).2.2.2⟩

/-! ## Lemmas about `IRR`'s counter-capped objective -/

/-- A call of the objective with the counter over budget throws. -/
lemma npvEval_err_of (depth tries : ℕ) (cf : List ℚ) (rate : ℚ)
    (h : depth < tries + 1) :
    npvEval depth cf tries rate = .error .searchExhausted := by
  rw [npvEval, if_pos h]

/-- A call of the objective within budget returns the net present value and
bumps the counter by one. -/
lemma npvEval_ok_of (depth tries : ℕ) (cf : List ℚ) (rate : ℚ)
    (h : tries + 1 ≤ depth) :
    npvEval depth cf tries rate = .ok (npvValue cf rate, tries + 1) := by
  rw [npvEval, if_neg (by omega)]

/-- Inversion of a successful objective call. -/
lemma npvEval_ok_inv {depth tries t' : ℕ} {cf : List ℚ} {rate v : ℚ}
    (h : npvEval depth cf tries rate = .ok (v, t')) :
    tries + 1 ≤ depth ∧ v = npvValue cf rate ∧ t' = tries + 1 := by
  rw [npvEval] at h
  split_ifs at h with hc
  simp only [Except.ok.injEq, Prod.mk.injEq] at h
  exact ⟨by omega, h.1.symm, h.2.symm⟩

/-- Inversion of a failing objective call. -/
lemma npvEval_err_inv {depth tries : ℕ} {cf : List ℚ} {rate : ℚ} {e : Err}
    (h : npvEval depth cf tries rate = .error e) :
    e = .searchExhausted ∧ depth < tries + 1 := by
  rw [npvEval] at h
  split_ifs at h with hc
  simp only [Except.error.injEq] at h
  exact ⟨h.symm, hc⟩

/-- CLAIM C4: the embedded objective increments its counter on every call
and throws `"IRR can't find a result"` exactly when the incremented counter
exceeds `depth`; a call succeeds exactly when the incremented counter stays
within `depth`, so starting from counter `1` at most `depth - 1` calls can
succeed. -/
theorem IRR_objective_counter (depth : ℕ) (cashFlow : List ℚ) (tries : ℕ)
    (rate : ℚ) :
    (npvEval depth cashFlow tries rate = .error .searchExhausted ↔ depth < tries + 1)
    ∧ (npvEval depth cashFlow tries rate = .ok (npvValue cashFlow rate, tries + 1)
        ↔ tries + 1 ≤ depth)
    ∧ (∀ (v : ℚ) (tries' : ℕ),
        npvEval depth cashFlow tries rate = .ok (v, tries') →
          v = npvValue cashFlow rate ∧ tries' = tries + 1 ∧ tries + 1 ≤ depth) := by
  refine ⟨⟨fun h => (npvEval_err_inv h).2, fun h => npvEval_err_of _ _ _ _ h⟩,
    ⟨fun h => ?_, fun h => npvEval_ok_of _ _ _ _ h⟩,
    fun v tries' h => ?_⟩
  · exact (npvEval_ok_inv h).1
  · obtain ⟨h1, h2, h3⟩ := npvEval_ok_inv h
    exact ⟨h2, h3, h1⟩

/-- Witness for `IRR_objective_counter`: with `depth = 3` the call at
counter `1` succeeds and the call at counter `3` throws. -/
theorem IRR_objective_counter_witness :
    npvEval 3 [-1, 2] 1 0 = .ok (npvValue [-1, 2] 0, 2)
    ∧ npvEval 3 [-1, 2] 3 0 = .error .searchExhausted :=
  ⟨(IRR_objective_counter 3 [-1, 2] 1 0).2.1.mpr (by omega),
   (IRR_objective_counter 3 [-1, 2] 3 0).1.mpr (by omega)⟩

/-! ## Lemmas about the effectful `seekZero` loops used by `IRR` -/

/-- The upward scan completes (result or thrown error) whenever the fuel
covers the remaining call budget `depth + 1 - tries`. -/
lemma seekUpE_isSome (depth : ℕ) (cf : List ℚ) :
    ∀ (fuel tries : ℕ) (x : ℚ), depth + 2 ≤ fuel + tries → tries ≤ depth + 1 →
      ∃ r, seekUpE depth cf fuel tries x = some r := by
  intro fuel
  induction fuel with
  | zero => intro tries x h1 h2; omega
  | succ fuel ih =>
    intro tries x h1 h2
    by_cases hd : depth < tries + 1
    · exact ⟨.error .searchExhausted, by simp [seekUpE, npvEval_err_of depth tries cf x hd]⟩
    · have hok := npvEval_ok_of depth tries cf x (by omega)
      by_cases hv : 0 < npvValue cf x
      · obtain ⟨r, hr⟩ := ih (tries + 1) (x + 1) (by omega) (by omega)
        exact ⟨r, by simp [seekUpE, hok, hv, hr]⟩
      · exact ⟨.ok (x, tries + 1), by simp [seekUpE, hok, hv]⟩

/-- The downward scan completes whenever the fuel covers the remaining call
budget. -/
lemma seekDownE_isSome (depth : ℕ) (cf : List ℚ) :
    ∀ (fuel tries : ℕ) (x : ℚ), depth + 2 ≤ fuel + tries → tries ≤ depth + 1 →
      ∃ r, seekDownE depth cf fuel tries x = some r := by
  intro fuel
  induction fuel with
  | zero => intro tries x h1 h2; omega
  | succ fuel ih =>
    intro tries x h1 h2
    by_cases hd : depth < tries + 1
    · exact ⟨.error .searchExhausted, by simp [seekDownE, npvEval_err_of depth tries cf x hd]⟩
    · have hok := npvEval_ok_of depth tries cf x (by omega)
      by_cases hv : npvValue cf x < 0
      · obtain ⟨r, hr⟩ := ih (tries + 1) (x - 1 / 100) (by omega) (by omega)
        exact ⟨r, by simp only [seekDownE, hok, hv, if_true, if_pos]; exact hr⟩
      · exact ⟨.ok (x, tries + 1), by simp [seekDownE, hok, hv]⟩

/-- A completed upward scan is insensitive to one more unit of fuel. -/
lemma seekUpE_succ (depth : ℕ) (cf : List ℚ) :
    ∀ (fuel tries : ℕ) (x : ℚ) (r : Except Err (ℚ × ℕ)),
      seekUpE depth cf fuel tries x = some r →
      seekUpE depth cf (fuel + 1) tries x = some r := by
  intro fuel
  induction fuel with
  | zero => intro tries x r h; simp [seekUpE] at h
  | succ fuel ih =>
    intro tries x r h
    rcases hnp : npvEval depth cf tries x with e | ⟨v, t⟩
    · simp only [seekUpE, hnp] at h ⊢
      exact h
    · simp only [seekUpE, hnp] at h ⊢
      by_cases hv : 0 < v
      · rw [if_pos hv] at h ⊢
        exact ih _ _ _ h
      · rw [if_neg hv] at h ⊢
        exact h

/-- A completed downward scan is insensitive to one more unit of fuel. -/
lemma seekDownE_succ (depth : ℕ) (cf : List ℚ) :
    ∀ (fuel tries : ℕ) (x : ℚ) (r : Except Err (ℚ × ℕ)),
      seekDownE depth cf fuel tries x = some r →
      seekDownE depth cf (fuel + 1) tries x = some r := by
  intro fuel
  induction fuel with
  | zero => intro tries x r h; simp [seekDownE] at h
  | succ fuel ih =>
    intro tries x r h
    rcases hnp : npvEval depth cf tries x with e | ⟨v, t⟩
    · simp only [seekDownE, hnp] at h ⊢
      exact h
    · simp only [seekDownE, hnp] at h ⊢
      by_cases hv : v < 0
      · rw [if_pos hv] at h ⊢
        exact ih _ _ _ h
      · rw [if_neg hv] at h ⊢
        exact h

/-- A completed upward scan gives the same result for any larger fuel. -/
lemma seekUpE_mono (depth : ℕ) (cf : List ℚ) {fuel fuel' : ℕ}
    (hle : fuel ≤ fuel') (tries : ℕ) (x : ℚ) (r : Except Err (ℚ × ℕ))
    (h : seekUpE depth cf fuel tries x = some r) :
    seekUpE depth cf fuel' tries x = some r := by
  induction hle with
  | refl => exact h
  | step _ ih => exact seekUpE_succ depth cf _ tries x r ih

/-- A completed downward scan gives the same result for any larger fuel. -/
lemma seekDownE_mono (depth : ℕ) (cf : List ℚ) {fuel fuel' : ℕ}
    (hle : fuel ≤ fuel') (tries : ℕ) (x : ℚ) (r : Except Err (ℚ × ℕ))
    (h : seekDownE depth cf fuel tries x = some r) :
    seekDownE depth cf fuel' tries x = some r := by
  induction hle with
  | refl => exact h
  | step _ ih => exact seekDownE_succ depth cf _ tries x r ih

/-- A successful upward scan leaves the counter within the depth budget. -/
lemma seekUpE_ok_inv (depth : ℕ) (cf : List ℚ) :
    ∀ (fuel tries : ℕ) (x y : ℚ) (t' : ℕ),
      seekUpE depth cf fuel tries x = some (.ok (y, t')) →
      1 ≤ t' ∧ t' ≤ depth := by
  intro fuel
  induction fuel with
  | zero => intro tries x y t' h; simp [seekUpE] at h
  | succ fuel ih =>
    intro tries x y t' h
    rcases hnp : npvEval depth cf tries x with e | ⟨v, t⟩
    · simp only [seekUpE, hnp] at h
      exact absurd h (by simp)
    · simp only [seekUpE, hnp] at h
      by_cases hv : 0 < v
      · rw [if_pos hv] at h
        exact ih _ _ _ _ h
      · rw [if_neg hv] at h
        obtain ⟨hd, _, ht⟩ := npvEval_ok_inv hnp
        simp only [Option.some.injEq, Except.ok.injEq, Prod.mk.injEq] at h
        omega

/-- The only error the upward scan can surface is the depth-cap error of the
objective itself. -/
lemma seekUpE_err_inv (depth : ℕ) (cf : List ℚ) :
    ∀ (fuel tries : ℕ) (x : ℚ) (e : Err),
      seekUpE depth cf fuel tries x = some (.error e) → e = .searchExhausted := by
  intro fuel
  induction fuel with
  | zero => intro tries x e h; simp [seekUpE] at h
  | succ fuel ih =>
    intro tries x e h
    rcases hnp : npvEval depth cf tries x with e0 | ⟨v, t⟩
    · simp only [seekUpE, hnp] at h
      simp only [Option.some.injEq, Except.error.injEq] at h
      rw [← h]
      exact (npvEval_err_inv hnp).1
    · simp only [seekUpE, hnp] at h
      by_cases hv : 0 < v
      · rw [if_pos hv] at h
        exact ih _ _ _ h
      · rw [if_neg hv] at h
        exact absurd h (by simp)

/-- The only error the downward scan can surface is the depth-cap error. -/
lemma seekDownE_err_inv (depth : ℕ) (cf : List ℚ) :
    ∀ (fuel tries : ℕ) (x : ℚ) (e : Err),
      seekDownE depth cf fuel tries x = some (.error e) → e = .searchExhausted := by
  intro fuel
  induction fuel with
  | zero => intro tries x e h; simp [seekDownE] at h
  | succ fuel ih =>
    intro tries x e h
    rcases hnp : npvEval depth cf tries x with e0 | ⟨v, t⟩
    · simp only [seekDownE, hnp] at h
      simp only [Option.some.injEq, Except.error.injEq] at h
      rw [← h]
      exact (npvEval_err_inv hnp).1
    · simp only [seekDownE, hnp] at h
      by_cases hv : v < 0
      · rw [if_pos hv] at h
        exact ih _ _ _ h
      · rw [if_neg hv] at h
        exact absurd h (by simp)

/-- The downward scan exits at a point where the objective evaluated
nonnegative (the loop guard `fn(x) < 0` just failed there). -/
lemma seekDownE_nonneg (depth : ℕ) (cf : List ℚ) :
    ∀ (fuel tries : ℕ) (x y : ℚ) (t' : ℕ),
      seekDownE depth cf fuel tries x = some (.ok (y, t')) →
      0 ≤ npvValue cf y := by
  intro fuel
  induction fuel with
  | zero => intro tries x y t' h; simp [seekDownE] at h
  | succ fuel ih =>
    intro tries x y t' h
    rcases hnp : npvEval depth cf tries x with e | ⟨v, t⟩
    · simp only [seekDownE, hnp] at h
      exact absurd h (by simp)
    · simp only [seekDownE, hnp] at h
      by_cases hv : v < 0
      · rw [if_pos hv] at h
        exact ih _ _ _ _ h
      · rw [if_neg hv] at h
        simp only [Option.some.injEq, Except.ok.injEq, Prod.mk.injEq] at h
        obtain ⟨_, hval, _⟩ := npvEval_ok_inv hnp
        rw [← h.1]
        rw [hval] at hv
        exact le_of_not_lt hv

/-- With fuel `depth + 1` the composed `seekZero` run completes. -/
lemma seekZeroE_isSome (depth : ℕ) (cf : List ℚ) :
    ∃ r, seekZeroE depth cf (depth + 1) 1 = some r := by
  obtain ⟨r, hr⟩ := seekUpE_isSome depth cf (depth + 1) 1 1 (by omega) (by omega)
  rcases r with e | ⟨y, t⟩
  · exact ⟨.error e, by simp [seekZeroE, hr]⟩
  · obtain ⟨ht1, ht2⟩ := seekUpE_ok_inv depth cf (depth + 1) 1 1 y t hr
    obtain ⟨r2, hr2⟩ := seekDownE_isSome depth cf (depth + 1) t y (by omega) (by omega)
    rcases r2 with e2 | ⟨y2, t2⟩
    · exact ⟨.error e2, by simp [seekZeroE, hr, hr2]⟩
    · exact ⟨.ok (y2 + 1 / 100), by simp [seekZeroE, hr, hr2]⟩

/-- A completed `seekZero` run gives the same result for any larger fuel. -/
lemma seekZeroE_mono (depth : ℕ) (cf : List ℚ) {fuel fuel' : ℕ}
    (hle : fuel ≤ fuel') (t0 : ℕ) (r : Except Err ℚ)
    (h : seekZeroE depth cf fuel t0 = some r) :
    seekZeroE depth cf fuel' t0 = some r := by
  unfold seekZeroE at h ⊢
  rcases hup : seekUpE depth cf fuel t0 1 with _ | r1
  · simp only [hup] at h
    exact absurd h (by simp)
  · simp only [hup] at h
    simp only [seekUpE_mono depth cf hle t0 1 r1 hup]
    rcases r1 with e | ⟨y, t⟩
    · exact h
    · rcases hdn : seekDownE depth cf fuel t y with _ | r2
      · simp only [hdn] at h
        exact absurd h (by simp)
      · simp only [hdn] at h
        simp only [seekDownE_mono depth cf hle t y r2 hdn]
        exact h

/-- The only error `seekZero` can surface is the objective's depth-cap
error. -/
lemma seekZeroE_err_inv (depth : ℕ) (cf : List ℚ) (fuel t0 : ℕ) (e : Err)
    (h : seekZeroE depth cf fuel t0 = some (.error e)) : e = .searchExhausted := by
  unfold seekZeroE at h
  rcases hup : seekUpE depth cf fuel t0 1 with _ | r1 <;> simp only [hup] at h
  · exact absurd h (by simp)
  · rcases r1 with e1 | ⟨y, t⟩
    · simp only [Option.some.injEq, Except.error.injEq] at h
      rw [← h]
      exact seekUpE_err_inv depth cf fuel t0 1 e1 hup
    · rcases hdn : seekDownE depth cf fuel t y with _ | r2 <;> simp only [hdn] at h
      · exact absurd h (by simp)
      · rcases r2 with e2 | ⟨y2, t2⟩
        · simp only [Option.some.injEq, Except.error.injEq] at h
          rw [← h]
          exact seekDownE_err_inv depth cf fuel t y e2 hdn
        · exact absurd h (by simp)

/-- A successful `seekZero` run exits phase 2 at a point where the objective
is nonnegative, and returns that point plus `0.01`. -/
lemma seekZeroE_ok_inv (depth : ℕ) (cf : List ℚ) (fuel t0 : ℕ) (r : ℚ)
    (h : seekZeroE depth cf fuel t0 = some (.ok r)) :
    0 ≤ npvValue cf (r - 1 / 100) := by
  unfold seekZeroE at h
  rcases hup : seekUpE depth cf fuel t0 1 with _ | r1 <;> simp only [hup] at h
  · exact absurd h (by simp)
  · rcases r1 with e1 | ⟨y, t⟩
    · exact absurd h (by simp)
    · rcases hdn : seekDownE depth cf fuel t y with _ | r2 <;> simp only [hdn] at h
      · exact absurd h (by simp)
      · rcases r2 with e2 | ⟨y2, t2⟩
        · exact absurd h (by simp)
        · simp only [Option.some.injEq, Except.ok.injEq] at h
          have h0 := seekDownE_nonneg depth cf fuel t y y2 t2 hdn
          rw [← h]
          simpa using h0

/-- `IRRf` is insensitive to the fuel bound once the fuel covers the depth
budget: the computation has already completed by then. -/
lemma IRRf_stable (depth : ℕ) (cf : List ℚ) {fuel : ℕ} (h : depth + 1 ≤ fuel) :
    IRRf depth cf fuel = IRR depth cf := by
  unfold IRR IRRf
  by_cases hs : (hasPositive cf && hasNegative cf) = true
  · rw [if_pos hs, if_pos hs]
    obtain ⟨r, hr⟩ := seekZeroE_isSome depth cf
    rw [hr, seekZeroE_mono depth cf h 1 r hr]
  · rw [if_neg hs, if_neg hs]

/-- CLAIM C5: for any series and depth, `IRR` terminates — the result is
fuel-independent beyond the `depth + 1` bound forced by the objective's
counter cap, and it is never the still-running marker `none`: the run ends
in a value or a thrown error. -/
theorem IRR_terminates (depth : ℕ) (cf : List ℚ) (fuel : ℕ)
    (hpos : hasPositive cf = true) (hneg : hasNegative cf = true)
    (hfuel : depth + 1 ≤ fuel) :
    IRRf depth cf fuel = IRR depth cf ∧ IRR depth cf ≠ none := by
  refine ⟨IRRf_stable depth cf hfuel, ?_⟩
  unfold IRR IRRf
  rw [if_pos (by rw [hpos, hneg]; rfl)]
  obtain ⟨r, hr⟩ := seekZeroE_isSome depth cf
  rw [hr]
  simp

/-- Witness for `IRR_terminates` at `depth = 5`, `cashFlow = [-100, 101]`. -/
theorem IRR_terminates_witness :
    IRRf 5 [-100, 101] 10 = IRR 5 [-100, 101] ∧ IRR 5 [-100, 101] ≠ none :=
  IRR_terminates 5 [-100, 101] 10 (by decide) (by decide) (by omega)

/-- CLAIM C6 (amended): when `IRR` returns a value, that value is the
2-decimal rounding of the `seekZero` output, and the embedded objective is
nonnegative at the point `0.01` below that output (the exit point of the
downward scan).  The objective value at the returned rate itself is not
bounded near zero. -/
theorem IRR_result_brackets_root (depth : ℕ) (cf : List ℚ) (r : ℚ)
    (h : IRR depth cf = some (.ok r)) :
    r = round2 (seekZeroVal depth cf (depth + 1))
    ∧ 0 ≤ npvValue cf (seekZeroVal depth cf (depth + 1) - 1 / 100) := by
  unfold IRR IRRf at h
  by_cases hs : (hasPositive cf && hasNegative cf) = true
  · rw [if_pos hs] at h
    rcases hz : seekZeroE depth cf (depth + 1) 1 with _ | r1 <;> simp only [hz] at h
    · exact absurd h (by simp)
    · rcases r1 with e | y
      · exact absurd h (by simp [Except.map])
      · simp only [Option.map_some', Except.map, Option.some.injEq,
          Except.ok.injEq] at h
        unfold seekZeroVal
        simp only [hz]
        exact ⟨h.symm, seekZeroE_ok_inv depth cf (depth + 1) 1 y hz⟩
  · rw [if_neg hs] at h
    simp at h

/-- CLAIM C6 (counterexample to the original wording): on
`[-100000000, 100985000]` with `depth = 10`, `IRR` returns `0.99`, but the
embedded objective at that rate is below `-4950` — nowhere near zero. -/
theorem IRR_npv_feedback_cex :
    IRR 10 [-100000000, 100985000] = some (.ok (99 / 100))
    ∧ npvValue [-100000000, 100985000] (99 / 100) < -4950 :=
  ⟨by decide, by decide⟩

/-- Witness for `IRR_result_brackets_root` at `depth = 5`,
`cashFlow = [-100, 101]`. -/
theorem IRR_result_brackets_root_witness :
    (101 : ℚ) / 100 = round2 (seekZeroVal 5 [-100, 101] 6)
    ∧ 0 ≤ npvValue [-100, 101] (seekZeroVal 5 [-100, 101] 6 - 1 / 100) :=
  IRR_result_brackets_root 5 [-100, 101] (101 / 100) (by decide)

/-! ## Lemmas about the `XIRR` precondition checks -/

/-- Mismatched lengths fail first. -/
lemma XIRR_len_err (pw : ℚ → ℚ → ℚ) {cfs : List ℚ} {dts : List ℤ} (g : ℚ)
    (hlen : cfs.length ≠ dts.length) :
    XIRR pw cfs dts g = .error .lengthMismatch := by
  rw [XIRR, if_pos hlen]

/-- With matching lengths, a sign-mixture violation fails next. -/
lemma XIRR_signs_err (pw : ℚ → ℚ → ℚ) {cfs : List ℚ} {dts : List ℤ} (g : ℚ)
    (hlen : cfs.length = dts.length)
    (hs : (hasPositive cfs && hasNegative cfs) = false) :
    XIRR pw cfs dts g = .error .invalidSigns := by
  rw [XIRR, if_neg (not_not_intro hlen), hs]
  rfl

/-- With both preconditions satisfied, `XIRR` reduces to the convergence
check on the final `(guessLast, guess)` pair of the Newton loop. -/
lemma XIRR_main (pw : ℚ → ℚ → ℚ) {cfs : List ℚ} {dts : List ℤ} (g : ℚ)
    (hlen : cfs.length = dts.length)
    (hs : (hasPositive cfs && hasNegative cfs) = true) :
    XIRR pw cfs dts g =
      (if toFixed5 (xirrLoop pw cfs (durations dts) g 100).1
          ≠ toFixed5 (xirrLoop pw cfs (durations dts) g 100).2 then
        .error .didNotConverge
      else .ok (round2 ((xirrLoop pw cfs (durations dts) g 100).2 * 100))) := by
  rw [XIRR, if_neg (not_not_intro hlen), hs]
  rfl

/-- CLAIM C8: `XIRR` reports the length mismatch error exactly when the two
arrays differ in length; the check precedes the sign check, the durations
and the iteration, so it fires even when those would also fail. -/
theorem XIRR_length_mismatch_iff (pw : ℚ → ℚ → ℚ) (cfs : List ℚ)
    (dts : List ℤ) (g : ℚ) :
    XIRR pw cfs dts g = .error .lengthMismatch ↔ cfs.length ≠ dts.length := by
  constructor
  · intro h
    by_contra hlen
    by_cases hs : (hasPositive cfs && hasNegative cfs) = true
    · rw [XIRR_main pw g hlen hs] at h
      split_ifs at h with hc
      all_goals simp at h
    · rw [XIRR_signs_err pw g hlen (by revert hs; cases hasPositive cfs <;> cases hasNegative cfs <;> simp)] at h
      simp at h
  · exact XIRR_len_err pw g

/-- Witness for `XIRR_length_mismatch_iff` at a concrete mismatched input. -/
theorem XIRR_length_mismatch_iff_witness :
    XIRR jpowInt [1, -1] [0] 0 = .error .lengthMismatch :=
  (XIRR_length_mismatch_iff jpowInt [1, -1] [0] 0).mpr (by decide)

/-- CLAIM C7 (amended): `IRR` reports the sign-requirement error exactly
when the series lacks a strictly positive or a strictly negative entry;
`XIRR` reports it exactly when, in addition, the two arrays have equal
length — on mismatched lengths the length error takes precedence. -/
theorem sign_error_characterization (depth : ℕ) (cf : List ℚ)
    (pw : ℚ → ℚ → ℚ) (cfs : List ℚ) (dts : List ℤ) (g : ℚ) :
    (IRR depth cf = some (.error .invalidSigns)
      ↔ ¬(hasPositive cf = true ∧ hasNegative cf = true))
    ∧ (XIRR pw cfs dts g = .error .invalidSigns
      ↔ cfs.length = dts.length
        ∧ ¬(hasPositive cfs = true ∧ hasNegative cfs = true)) := by
  constructor
  · by_cases hs : (hasPositive cf && hasNegative cf) = true
    · constructor
      · intro h
        exfalso
        unfold IRR IRRf at h
        rw [if_pos hs] at h
        rcases hz : seekZeroE depth cf (depth + 1) 1 with _ | r1 <;>
          simp only [hz] at h
        · exact absurd h (by simp)
        · rcases r1 with e | y
          · have he := seekZeroE_err_inv depth cf (depth + 1) 1 e hz
            subst he
            simp [Except.map] at h
          · simp [Except.map] at h
      · intro h
        rw [Bool.and_eq_true] at hs
        exact absurd hs h
    · constructor
      · intro _
        rw [Bool.and_eq_true] at hs
        exact hs
      · intro _
        unfold IRR IRRf
        rw [if_neg hs]
  · by_cases hlen : cfs.length = dts.length
    · by_cases hs : (hasPositive cfs && hasNegative cfs) = true
      · constructor
        · intro h
          exfalso
          rw [XIRR_main pw g hlen hs] at h
          split_ifs at h with hc
          all_goals simp at h
        · rintro ⟨_, hneg⟩
          exfalso
          rw [Bool.and_eq_true] at hs
          exact hneg hs
      · constructor
        · intro _
          refine ⟨hlen, ?_⟩
          rw [Bool.and_eq_true] at hs
          exact hs
        · intro _
          exact XIRR_signs_err pw g hlen
            (by revert hs; cases hasPositive cfs <;> cases hasNegative cfs <;> simp)
    · constructor
      · intro h
        rw [XIRR_len_err pw g hlen] at h
        simp at h
      · rintro ⟨hl, _⟩
        exact absurd hl hlen

/-- CLAIM C7 (counterexample to the original wording): on mismatched-length
input `cfs = [1]`, `dts = [d0, d1]`, the series lacks a negative entry, yet
`XIRR` raises the length error, not the sign error. -/
theorem XIRR_sign_error_cex :
    XIRR jpowInt [1] [0, 1] 0 = .error .lengthMismatch
    ∧ hasNegative [1] = false
    ∧ XIRR jpowInt [1] [0, 1] 0 ≠ .error .invalidSigns :=
  ⟨by decide, by decide, by decide⟩

/-- Witness for `sign_error_characterization` on an all-positive series. -/
theorem sign_error_characterization_witness :
    IRR 5 [1, 2] = some (.error .invalidSigns)
    ∧ XIRR jpowInt [1, 2] [0, 1] 0 = .error .invalidSigns :=
  ⟨(sign_error_characterization 5 [1, 2] jpowInt [1, 2] [0, 1] 0).1.mpr (by decide),
   (sign_error_characterization 5 [1, 2] jpowInt [1, 2] [0, 1] 0).2.mpr (by decide)⟩

/-! ## The convergence behaviour of `XIRR`'s Newton loop -/

/-- Running the `do/while` loop with `limit = l + 1` stops after `m + 1`
passes (`m ≤ l`), at the first pass whose `(guessLast, guess)` pair agrees
under `toFixed(5)` — or after all `l + 1` passes if no such pass occurs. -/
lemma xirrLoop_spec (pw : ℚ → ℚ → ℚ) (cfs durs : List ℚ) :
    ∀ (l : ℕ) (g : ℚ), ∃ m : ℕ, m ≤ l ∧
      xirrLoop pw cfs durs g (l + 1) =
        ((xirrStep pw cfs durs)^[m] g, (xirrStep pw cfs durs)^[m + 1] g)
      ∧ (∀ j, j < m →
          toFixed5 ((xirrStep pw cfs durs)^[j] g)
            ≠ toFixed5 ((xirrStep pw cfs durs)^[j + 1] g))
      ∧ (m < l →
          toFixed5 ((xirrStep pw cfs durs)^[m] g)
            = toFixed5 ((xirrStep pw cfs durs)^[m + 1] g)) := by
  intro l
  induction l with
  | zero =>
    intro g
    refine ⟨0, le_refl 0, ?_, ?_, ?_⟩
    · simp [xirrLoop]
    · intro j hj
      exact absurd hj (Nat.not_lt_zero j)
    · intro hlt
      exact absurd hlt (lt_irrefl 0)
  | succ l ih =>
    intro g
    by_cases heq : toFixed5 g = toFixed5 (xirrStep pw cfs durs g)
    · refine ⟨0, Nat.zero_le _, ?_, ?_, ?_⟩
      · simp [xirrLoop, heq]
      · intro j hj
        exact absurd hj (Nat.not_lt_zero j)
      · intro _
        simpa using heq
    · obtain ⟨m, hm, hres, hne, hconv⟩ := ih (xirrStep pw cfs durs g)
      refine ⟨m + 1, by omega, ?_, ?_, ?_⟩
      · have hstep : xirrLoop pw cfs durs g (l + 1 + 1)
            = xirrLoop pw cfs durs (xirrStep pw cfs durs g) (l + 1) := by
          simp only [xirrLoop]
          rw [if_pos ⟨heq, Nat.succ_pos l⟩]
        rw [hstep, hres]
        simp only [Function.iterate_succ_apply]
      · intro j hj
        cases j with
        | zero =>
          simpa using heq
        | succ j =>
          have hj' : j < m := by omega
          have hx := hne j hj'
          simpa [Function.iterate_succ_apply] using hx
      · intro hlt
        have hx := hconv (by omega)
        simpa [Function.iterate_succ_apply] using hx

/-- CLAIM C3: with the preconditions satisfied, `XIRR` fails with the
"did not converge" error exactly when no two consecutive Newton iterates
among the 100 loop passes agree under `toFixed(5)`; and when pass `k + 1`
is the first whose consecutive iterates agree, it returns the new iterate
times 100, rounded to 2 decimal places. -/
theorem XIRR_convergence_spec (pw : ℚ → ℚ → ℚ) (cfs : List ℚ) (dts : List ℤ)
    (guess : ℚ) (k : ℕ) (hlen : cfs.length = dts.length)
    (hpos : hasPositive cfs = true) (hneg : hasNegative cfs = true) :
    (XIRR pw cfs dts guess = .error .didNotConverge ↔
      ∀ j, j < 100 →
        toFixed5 (newtonSeq pw cfs (durations dts) guess j)
          ≠ toFixed5 (newtonSeq pw cfs (durations dts) guess (j + 1)))
    ∧ (k < 100 →
        toFixed5 (newtonSeq pw cfs (durations dts) guess k)
          = toFixed5 (newtonSeq pw cfs (durations dts) guess (k + 1)) →
        (∀ j, j < k →
          toFixed5 (newtonSeq pw cfs (durations dts) guess j)
            ≠ toFixed5 (newtonSeq pw cfs (durations dts) guess (j + 1))) →
        XIRR pw cfs dts guess
          = .ok (round2 (newtonSeq pw cfs (durations dts) guess (k + 1) * 100))) := by
  have hs : (hasPositive cfs && hasNegative cfs) = true := by rw [hpos, hneg]; rfl
  have hmain := XIRR_main pw guess hlen hs
  obtain ⟨m, hm, hres, hne, hconv⟩ := xirrLoop_spec pw cfs (durations dts) 99 guess
  rw [show (99 : ℕ) + 1 = 100 from rfl] at hres
  have hmain2 : XIRR pw cfs dts guess =
      (if toFixed5 ((xirrStep pw cfs (durations dts))^[m] guess)
          ≠ toFixed5 ((xirrStep pw cfs (durations dts))^[m + 1] guess) then
        .error .didNotConverge
      else .ok (round2 ((xirrStep pw cfs (durations dts))^[m + 1] guess * 100))) := by
    rw [hmain, hres]
  simp only [newtonSeq]
  constructor
  · constructor
    · intro herr
      rw [hmain2] at herr
      by_cases hmeq : toFixed5 ((xirrStep pw cfs (durations dts))^[m] guess)
          = toFixed5 ((xirrStep pw cfs (durations dts))^[m + 1] guess)
      · rw [if_neg (by simpa using hmeq)] at herr
        exact absurd herr (by simp)
      · have hm99 : m = 99 := by
          by_contra hne99
          exact hmeq (hconv (by omega))
        intro j hj
        rcases Nat.lt_or_ge j m with hjm | hjm
        · exact hne j hjm
        · have hj99 : j = 99 := by omega
          subst hj99
          rw [← hm99]
          exact hmeq
    · intro hall
      rw [hmain2, if_pos (hall m (by omega))]
  · intro hk100 hagree hleast
    have hmk : m = k := by
      rcases Nat.lt_trichotomy m k with h1 | h2 | h3
      · exact absurd (hconv (by omega)) (hleast m h1)
      · exact h2
      · exact absurd hagree (hne k h3)
    subst hmk
    rw [hmain2, if_neg (by simpa using hagree)]

/-- Witness for `XIRR_convergence_spec`: `cfs = [-1, 1]` dated one exact
year apart with `guess = 0` converges on the first pass. -/
theorem XIRR_convergence_spec_witness :
    XIRR jpowInt [-1, 1] [0, 31536000000] 0
      = .ok (round2 (newtonSeq jpowInt [-1, 1] (durations [0, 31536000000]) 0 (0 + 1) * 100)) :=
  (XIRR_convergence_spec jpowInt [-1, 1] [0, 31536000000] 0 0 (by decide)
    (by decide) (by decide)).2 (by decide) (by decide) (by decide)

/-! ## The durations used by `XIRR` -/

/-- Indexing a mapped duration list below its length applies `durYear` to
the indexed date. -/
lemma getD_map_durYear (d0 : ℤ) :
    ∀ (l : List ℤ) (k : ℕ), k < l.length →
      (l.map (durYear d0)).getD k 0 = durYear d0 (l.getD k 0) := by
  intro l
  induction l with
  | nil => intro k hk; simp at hk
  | cons a l ih =>
    intro k hk
    cases k with
    | zero => simp
    | succ k =>
      simp only [List.map_cons, List.getD_cons_succ]
      exact ih k (by simpa using hk)

/-- CLAIM C9: `durs[0] = 0`; for `1 ≤ i < dts.length`,
`durs[i] = round(|dates[i] - dates[0]| in days) / 365`; and `durYear` is
symmetric in its two date arguments. -/
theorem durations_formula (d1 d2 : ℤ) (dts : List ℤ) (i : ℕ) :
    durYear d1 d2 = durYear d2 d1
    ∧ (durations dts).getD 0 0 = 0
    ∧ (1 ≤ i → i < dts.length →
        (durations dts).getD i 0
          = ((jround (|((dts.getD i 0 - dts.getD 0 0 : ℤ) : ℚ)| / msPerDay) : ℤ) : ℚ) / 365) := by
  refine ⟨?_, rfl, ?_⟩
  · unfold durYear
    have habs : |((d2 - d1 : ℤ) : ℚ)| = |((d1 - d2 : ℤ) : ℚ)| := by
      push_cast
      rw [abs_sub_comm]
    rw [abs_div, abs_div, habs]
  · intro h1 hi
    rcases dts with _ | ⟨d0, rest⟩
    · simp at hi
    · obtain ⟨k, rfl⟩ : ∃ k, i = k + 1 := ⟨i - 1, by omega⟩
      show ((0 : ℚ) :: rest.map (durYear d0)).getD (k + 1) 0 = _
      rw [List.getD_cons_succ,
        getD_map_durYear d0 rest k (by simpa using hi)]
      simp only [List.getD_cons_succ, List.getD_cons_zero]
      rw [durYear, abs_div, abs_of_pos (show (0 : ℚ) < msPerDay by norm_num [msPerDay])]

/-- Witness for `durations_formula` on two dates one day apart. -/
theorem durations_formula_witness :
    durYear 0 86400000 = durYear 86400000 0
    ∧ (durations [(0 : ℤ), 86400000]).getD 0 0 = 0
    ∧ (durations [(0 : ℤ), 86400000]).getD 1 0
        = ((jround (|((([(0 : ℤ), 86400000].getD 1 0 - [(0 : ℤ), 86400000].getD 0 0 : ℤ) : ℚ))| / msPerDay) : ℤ) : ℚ) / 365 :=
  ⟨(durations_formula 0 86400000 [0, 86400000] 1).1,
   (durations_formula 0 86400000 [0, 86400000] 1).2.1,
   (durations_formula 0 86400000 [0, 86400000] 1).2.2 (by omega) (by decide)⟩

/-! ## The Newton divisor of `XIRR` -/

/-- A list of zeros reads zero at every index. -/
lemma getD_zero_of_all_zero :
    ∀ (l : List ℚ), (∀ x ∈ l, x = 0) → ∀ i, l.getD i 0 = 0 := by
  intro l
  induction l with
  | nil => intro _ i; cases i <;> rfl
  | cons a l ih =>
    intro h i
    cases i with
    | zero => simpa using h a (by simp)
    | succ i =>
      simp only [List.getD_cons_succ]
      exact ih (fun x hx => h x (by simp [hx])) i

/-- CLAIM C10 (amended): the Newton divisor `sum_fdx` vanishes whenever all
durations are zero — as happens precisely when every date equals `dates[0]`
— so the division `sum_fx / sum_fdx` is not guarded on inputs satisfying
`XIRR`'s stated preconditions. -/
theorem sumFdx_zero_divisor (pw : ℚ → ℚ → ℚ) (cfs durs : List ℚ) (g : ℚ)
    (d : ℤ) (dts : List ℤ) :
    ((∀ x ∈ durs, x = 0) → sumFdx pw cfs durs g = 0)
    ∧ ((∀ x ∈ dts, x = d) → ∀ y ∈ durations dts, y = 0) := by
  constructor
  · intro h
    rw [sumFdx_eq, npvDerivOfSpec]
    refine Finset.sum_eq_zero fun i _ => ?_
    rw [getD_zero_of_all_zero durs h i]
    ring
  · intro h y hy
    rcases dts with _ | ⟨d0, rest⟩
    · simpa [durations] using hy
    · simp only [durations, List.drop_succ_cons, List.drop_zero,
        List.headD_cons] at hy
      rcases List.mem_cons.mp hy with h0 | hmem
      · exact h0
      · obtain ⟨x, hx, rfl⟩ := List.mem_map.mp hmem
        have hxd : x = d := h x (by simp [hx])
        have hd0 : d0 = d := h d0 (by simp)
        rw [hxd, hd0]
        norm_num [durYear, jround]

/-- CLAIM C10 (counterexample): `cfs = [-1, 1]` with both dates equal
satisfies every stated precondition of `XIRR`, yet the divisor `sum_fdx`
is `0` at the starting guess. -/
theorem sumFdx_zero_divisor_cex :
    ([(-1 : ℚ), 1]).length = ([(0 : ℤ), 0]).length
    ∧ hasPositive [(-1 : ℚ), 1] = true
    ∧ hasNegative [(-1 : ℚ), 1] = true
    ∧ sumFdx jpowInt [(-1 : ℚ), 1] (durations [(0 : ℤ), 0]) 0 = 0 :=
  ⟨rfl, by decide, by decide, by decide⟩

/-- Witness for `sumFdx_zero_divisor` on a different all-equal-dates input. -/
theorem sumFdx_zero_divisor_witness :
    sumFdx jpowInt [(-3 : ℚ), 5] (durations [(7 : ℤ), 7]) 0 = 0 :=
  (sumFdx_zero_divisor jpowInt [(-3 : ℚ), 5] (durations [(7 : ℤ), 7]) 0 7
    [(7 : ℤ), 7]).1 (by decide)

end Finance
